import Mathlib

/-!
Shallow embedding of the Topic & Skill service core (src/app.py).

The Flask handlers mutate a database session; here each handler is a pure
function from a `State` (the stored Topic and Skill rows plus an id
generator) and a parsed request to a result paired with the next state.
Python truthiness (`if x:` on `None`/`""`) is modelled by `truthy`;
JSON key presence vs. null is modelled by a double `Option` where the
code distinguishes them (`payload.get(k, default)`).
-/

/-- Python whitespace (the characters `str.strip()` removes). -/
def isSpaceChar (c : Char) : Bool :=
  c == ' ' || c == '\t' || c == '\n' || c == '\r' || c.toNat == 11 || c.toNat == 12

/-- Python `str.strip()`: remove leading and trailing whitespace. -/
def pyStrip (s : String) : String :=
  ⟨((s.data.dropWhile isSpaceChar).reverse.dropWhile isSpaceChar).reverse⟩

/-- Python truthiness of an optional string value: `None` and `""` are falsy. -/
def truthy : Option String → Bool
  | none => false
  | some s => !(s == "")

/-- Python `v or fallback` for an optional string `v`. -/
def orElseStr (v : Option String) (fallback : String) : String :=
  if truthy v then v.getD "" else fallback

/-- Error responses of the handlers (HTTP 404 / 422 / 409 with a message). -/
inductive Err where
  | notFound (msg : String)
  | validation (msg : String)
  | conflict (msg : String)
deriving DecidableEq, Repr

/-- The kind of a handler result, forgetting payloads and messages. -/
inductive Outcome where
  | ok
  | notFound
  | validation
  | conflict
deriving DecidableEq, Repr

instance {ε α : Type} [DecidableEq ε] [DecidableEq α] : DecidableEq (Except ε α) :=
  fun a b =>
    match a, b with
    | .ok x, .ok y => decidable_of_iff (x = y) (by simp)
    | .error x, .error y => decidable_of_iff (x = y) (by simp)
    | .ok _, .error _ => isFalse (by simp)
    | .error _, .ok _ => isFalse (by simp)

def outcomeOf : Except Err α → Outcome
  | .ok _ => .ok
  | .error (.notFound _) => .notFound
  | .error (.validation _) => .validation
  | .error (.conflict _) => .conflict

/-- A stored Topic row. -/
structure Topic where
  id : String
  name : String
  description : Option String
  parentTopicID : Option String
deriving DecidableEq, Repr

/-- A stored Skill row (`topic_id` is NOT NULL in the model). -/
structure Skill where
  id : String
  name : String
  topicID : String
  difficulty : String
deriving DecidableEq, Repr

/-- The database: Topic rows, Skill rows, and a fresh-id counter standing in
for UUID generation. -/
structure State where
  topics : List Topic
  skills : List Skill
  nextId : Nat
deriving DecidableEq, Repr

def emptyState : State := ⟨[], [], 0⟩

def genId (n : Nat) : String := "id" ++ toString n

/-- `Topic.query.get(id)`: primary-key lookup. -/
def findTopic (st : State) (id : String) : Option Topic :=
  st.topics.find? (fun t => t.id == id)

/-- `Skill.query.get(id)`: primary-key lookup. -/
def findSkill (st : State) (id : String) : Option Skill :=
  st.skills.find? (fun s => s.id == id)

/-- JSON body of a Topic create/update request.  The outer `Option` on
`description`/`parentTopicID` is key presence (the code uses
`payload.get(k, default)` there); `name` only ever flows through falsy
checks, so null and absent coincide for it. -/
structure TopicPayload where
  name : Option String
  description : Option (Option String)
  parentTopicID : Option (Option String)
deriving DecidableEq, Repr

/-- POST /topics (`create_topic`). -/
def create_topic (st : State) (p : TopicPayload) : Except Err Topic × State :=
  let name := pyStrip (orElseStr p.name "")
  let description := p.description.getD none
  let parent_id := p.parentTopicID.getD none
  if name == "" then
    (.error (.validation "Field 'name' is required"), st)
  else if truthy parent_id && (findTopic st (parent_id.getD "")).isNone then
    (.error (.validation "parentTopicID not found"), st)
  else
    let t : Topic := ⟨genId st.nextId, name, description, parent_id⟩
    (.ok t, ⟨st.topics ++ [t], st.skills, st.nextId + 1⟩)

/-- PUT /topics/<id> (`update_topic`). -/
def update_topic (st : State) (id : String) (p : TopicPayload) :
    Except Err Topic × State :=
  match findTopic st id with
  | none => (.error (.notFound "Topic not found"), st)
  | some t =>
    let name := pyStrip (orElseStr p.name t.name)
    let description := p.description.getD t.description
    let parent_id := p.parentTopicID.getD t.parentTopicID
    if truthy parent_id && (findTopic st (parent_id.getD "")).isNone then
      (.error (.validation "parentTopicID not found"), st)
    else
      let t2 : Topic := ⟨t.id, name, description, parent_id⟩
      (.ok t2,
        ⟨st.topics.map (fun x => if x.id == id then t2 else x), st.skills, st.nextId⟩)

/-- DELETE /topics/<id> (`delete_topic`): guarded by the dependent-Skill check. -/
def delete_topic (st : State) (id : String) : Except Err Unit × State :=
  match findTopic st id with
  | none => (.error (.notFound "Topic not found"), st)
  | some _ =>
    if st.skills.any (fun sk => sk.topicID == id) then
      (.error (.conflict "Topic has skills; move or delete skills first"), st)
    else
      (.ok (), ⟨st.topics.eraseP (fun t => t.id == id), st.skills, st.nextId⟩)

/-- JSON body of a Skill create/update request.  `topicID`/`topicId` carry
key presence (update uses `payload.get(k, default)` on them). -/
structure SkillPayload where
  name : Option String
  topicID : Option (Option String)
  topicId : Option (Option String)
  difficulty : Option String
deriving DecidableEq, Repr

/-- `payload.get("topicID") or payload.get("topicId")` in `create_skill`. -/
def resolveCreateTopicID (p : SkillPayload) : Option String :=
  if truthy (p.topicID.getD none) then p.topicID.getD none else p.topicId.getD none

/-- POST /skills (`create_skill`). -/
def create_skill (st : State) (p : SkillPayload) : Except Err Skill × State :=
  let name := pyStrip (orElseStr p.name "")
  let topic_id := resolveCreateTopicID p
  let difficulty := pyStrip (orElseStr p.difficulty "beginner")
  if name == "" then
    (.error (.validation "Field 'name' is required"), st)
  else if !(truthy topic_id) then
    (.error (.validation "Field 'topicID' is required"), st)
  else if (findTopic st (topic_id.getD "")).isNone then
    (.error (.validation "topicID not found"), st)
  else
    let s : Skill := ⟨genId st.nextId, name, topic_id.getD "", difficulty⟩
    (.ok s, ⟨st.topics, st.skills ++ [s], st.nextId + 1⟩)

/-- `payload.get("topicID", payload.get("topicId", s.topic_id))` in
`update_skill`. -/
def resolveUpdateTopicID (p : SkillPayload) (cur : String) : Option String :=
  p.topicID.getD (p.topicId.getD (some cur))

/-- PUT /skills/<id> (`update_skill`): the resolved topic id is re-checked
against the store even when the payload did not change it. -/
def update_skill (st : State) (id : String) (p : SkillPayload) :
    Except Err Skill × State :=
  match findSkill st id with
  | none => (.error (.notFound "Skill not found"), st)
  | some s =>
    let name := pyStrip (orElseStr p.name s.name)
    let topic_id := resolveUpdateTopicID p s.topicID
    let difficulty := pyStrip (orElseStr p.difficulty s.difficulty)
    match topic_id with
    | none => (.error (.validation "topicID not found"), st)
    | some tid =>
      if (findTopic st tid).isNone then
        (.error (.validation "topicID not found"), st)
      else
        let s2 : Skill := ⟨s.id, name, tid, difficulty⟩
        (.ok s2,
          ⟨st.topics, st.skills.map (fun x => if x.id == id then s2 else x), st.nextId⟩)

/-- DELETE /skills/<id> (`delete_skill`): unconditional once found. -/
def delete_skill (st : State) (id : String) : Except Err Unit × State :=
  match findSkill st id with
  | none => (.error (.notFound "Skill not found"), st)
  | some _ =>
    (.ok (), ⟨st.topics, st.skills.eraseP (fun s => s.id == id), st.nextId⟩)

/-- `limit = min(int(args.get("limit", 50)), 200)`. -/
def clampLimit (l : Option Int) : Int := min (l.getD 50) 200

/-- `offset = max(int(args.get("offset", 0)), 0)`. -/
def clampOffset (o : Option Int) : Int := max (o.getD 0) 0

/-- Does `pat` occur at the head of `l`? -/
def matchAt : List Char → List Char → Bool
  | [], _ => true
  | _ :: _, [] => false
  | a :: as, b :: bs => a == b && matchAt as bs

/-- Does `pat` occur anywhere in the second list? -/
def containsSub (pat : List Char) : List Char → Bool
  | [] => matchAt pat []
  | b :: bs => matchAt pat (b :: bs) || containsSub pat bs

/-- ASCII lower-casing of one character. -/
def lowerChar (c : Char) : Char :=
  if 65 <= c.toNat && c.toNat <= 90 then Char.ofNat (c.toNat + 32) else c

/-- Step-indexed SQL LIKE matcher over char lists: `%` matches any
sequence, `_` matches any single character, any other pattern character
matches itself.  The fuel only forces structural recursion (every
recursive call strictly shrinks `pattern.length + s.length`); `likeMatch`
always supplies enough. -/
def likeMatchF : Nat → List Char → List Char → Bool
  | 0, _, _ => false
  | _ + 1, [], s => s.isEmpty
  | f + 1, p :: ps, s =>
    if p == '%' then
      likeMatchF f ps s ||
        (match s with
         | [] => false
         | _ :: ss => likeMatchF f (p :: ps) ss)
    else
      match s with
      | [] => false
      | c :: ss => (p == '_' || p == c) && likeMatchF f ps ss

/-- SQL LIKE pattern matching. -/
def likeMatch (pat s : List Char) : Bool :=
  likeMatchF (pat.length + s.length + 1) pat s

/-- SQL `name ILIKE f"%{q}%"`: the code interpolates `q` unescaped, so any
`%` or `_` inside `q` stays a live wildcard; both sides are case-folded. -/
def ilike (s q : String) : Bool :=
  likeMatch ('%' :: (q.data.map lowerChar ++ ['%'])) (s.data.map lowerChar)

/-- Literal case-insensitive containment ("name contains q
case-insensitively"); coincides with `ilike` exactly when `q` has no LIKE
metacharacter. -/
def containsLit (s q : String) : Bool :=
  containsSub (q.data.map lowerChar) (s.data.map lowerChar)

/-- Lexicographic comparison of char lists by code point. -/
def charsLe : List Char → List Char → Bool
  | [], _ => true
  | _ :: _, [] => false
  | a :: as, b :: bs =>
    if a.toNat < b.toNat then true
    else if b.toNat < a.toNat then false
    else charsLe as bs

/-- Lexicographic `a <= b` on strings (the model of the column collation). -/
def strLe (a b : String) : Bool := charsLe a.data b.data

/-- Stable insertion keeping the list sorted by `key`. -/
def insertSorted (key : α → String) (a : α) : List α → List α
  | [] => [a]
  | b :: bs => if strLe (key a) (key b) then a :: b :: bs else b :: insertSorted key a bs

/-- SQL `ORDER BY key ASC` as a stable sort: rows with equal keys keep
their storage order (the query adds no identifier tie-break). -/
def sortByKey (key : α → String) : List α → List α
  | [] => []
  | a :: as => insertSorted key a (sortByKey key as)

/-- SQL `LIMIT limit OFFSET offset`: skip `offset` rows, return at most
`limit` rows (non-positive values yield no rows). -/
def applyPage (l : List α) (limit offset : Int) : List α :=
  (l.drop offset.toNat).take limit.toNat

/-- Query string of a list request; `filterId` is `parentId` for Topics and
`topicId` for Skills. -/
structure ListQuery where
  q : Option String
  filterId : Option String
  limit : Option Int
  offset : Option Int
deriving DecidableEq, Repr

/-- A list response: `data` plus the `meta` fields. -/
structure ListResult (α : Type) where
  data : List α
  total : Nat
  limit : Int
  offset : Int
deriving DecidableEq, Repr

/-- GET /topics (`list_topics`). -/
def list_topics (st : State) (lq : ListQuery) : ListResult Topic :=
  let limit := clampLimit lq.limit
  let offset := clampOffset lq.offset
  let q1 := if truthy lq.q then
      st.topics.filter (fun t => ilike t.name (lq.q.getD "")) else st.topics
  let q2 := if truthy lq.filterId then
      q1.filter (fun t => t.parentTopicID == some (lq.filterId.getD "")) else q1
  let total := q2.length
  let items := applyPage (sortByKey (fun t => t.name) q2) limit offset
  ⟨items, total, limit, offset⟩

/-- GET /skills (`list_skills`). -/
def list_skills (st : State) (lq : ListQuery) : ListResult Skill :=
  let limit := clampLimit lq.limit
  let offset := clampOffset lq.offset
  let q1 := if truthy lq.q then
      st.skills.filter (fun s => ilike s.name (lq.q.getD "")) else st.skills
  let q2 := if truthy lq.filterId then
      q1.filter (fun s => s.topicID == lq.filterId.getD "") else q1
  let total := q2.length
  let items := applyPage (sortByKey (fun s => s.name) q2) limit offset
  ⟨items, total, limit, offset⟩

/-- One successful mutating service call. -/
inductive Step : State → State → Prop where
  | createTopic {st : State} {p : TopicPayload} {t : Topic} {st2 : State} :
      create_topic st p = (.ok t, st2) → Step st st2
  | updateTopic {st : State} {id : String} {p : TopicPayload} {t : Topic} {st2 : State} :
      update_topic st id p = (.ok t, st2) → Step st st2
  | deleteTopic {st : State} {id : String} {st2 : State} :
      delete_topic st id = (.ok (), st2) → Step st st2
  | createSkill {st : State} {p : SkillPayload} {s : Skill} {st2 : State} :
      create_skill st p = (.ok s, st2) → Step st st2
  | updateSkill {st : State} {id : String} {p : SkillPayload} {s : Skill} {st2 : State} :
      update_skill st id p = (.ok s, st2) → Step st st2
  | deleteSkill {st : State} {id : String} {st2 : State} :
      delete_skill st id = (.ok (), st2) → Step st st2

/-- States reachable from the empty store by service operations (handler
calls that fail leave the state unchanged, so only successes step). -/
inductive Reachable : State → Prop where
  | init : Reachable emptyState
  | step {st st2 : State} : Reachable st → Step st st2 → Reachable st2

/-- Every stored Skill references an existing Topic. -/
def skillsValid (st : State) : Prop :=
  ∀ sk ∈ st.skills, ∃ t ∈ st.topics, t.id = sk.topicID

instance (st : State) : Decidable (skillsValid st) := by
  unfold skillsValid; infer_instance

/-- Every stored Topic with a set parent references an existing Topic. -/
def parentsValidB (st : State) : Bool :=
  st.topics.all fun t =>
    match t.parentTopicID with
    | none => true
    | some pid => st.topics.any (fun u => u.id == pid)

/-- Strict lexicographic comparison of char lists by code point. -/
def charsLt : List Char → List Char → Bool
  | [], [] => false
  | [], _ :: _ => true
  | _ :: _, [] => false
  | a :: as, b :: bs => a.toNat < b.toNat || (a.toNat == b.toNat && charsLt as bs)

/-- Lexicographic `a < b` on strings. -/
def strLt (a b : String) : Bool := charsLt a.data b.data

theorem charsLe_total : ∀ (a b : List Char), charsLe a b = true ∨ charsLe b a = true
  | [], _ => Or.inl rfl
  | _ :: _, [] => Or.inr rfl
  | a :: as, b :: bs => by
    rcases Nat.lt_trichotomy a.toNat b.toNat with h | h | h
    · left; simp [charsLe, h]
    · have hab : ¬ a.toNat < b.toNat := by omega
      have hba : ¬ b.toNat < a.toNat := by omega
      rcases charsLe_total as bs with ih | ih
      · left; simp [charsLe, hab, hba, ih]
      · right; simp [charsLe, hab, hba, ih]
    · right; simp [charsLe, h]

theorem charsLe_trans :
    ∀ (a b c : List Char), charsLe a b = true → charsLe b c = true → charsLe a c = true
  | [], _, _ => fun _ _ => rfl
  | _ :: _, [], _ => fun h _ => by simp [charsLe] at h
  | _ :: _, _ :: _, [] => fun _ h => by simp [charsLe] at h
  | a :: as, b :: bs, c :: cs => fun hab hbc => by
    simp only [charsLe] at hab hbc ⊢
    by_cases h1 : a.toNat < b.toNat <;> by_cases h2 : b.toNat < c.toNat
    · simp [show a.toNat < c.toNat by omega]
    · simp only [h2, if_false] at hbc
      by_cases h3 : c.toNat < b.toNat
      · simp [h3] at hbc
      · have : b.toNat = c.toNat := by omega
        simp [show a.toNat < c.toNat by omega]
    · simp only [h1, if_false] at hab
      by_cases h3 : b.toNat < a.toNat
      · simp [h3] at hab
      · have : a.toNat = b.toNat := by omega
        simp [show a.toNat < c.toNat by omega]
    · simp only [h1, if_false] at hab
      simp only [h2, if_false] at hbc
      by_cases h3 : b.toNat < a.toNat
      · simp [h3] at hab
      · by_cases h4 : c.toNat < b.toNat
        · simp [h4] at hbc
        · have hac : ¬ a.toNat < c.toNat := by omega
          have hca : ¬ c.toNat < a.toNat := by omega
          simp only [hac, if_false, hca]
          simp only [h3, if_false] at hab
          simp only [h4, if_false] at hbc
          simp [charsLe_trans as bs cs hab hbc]

theorem strLe_total (a b : String) : strLe a b = true ∨ strLe b a = true :=
  charsLe_total a.data b.data

theorem strLe_trans {a b c : String} (h1 : strLe a b = true) (h2 : strLe b c = true) :
    strLe a c = true :=
  charsLe_trans a.data b.data c.data h1 h2

theorem mem_insertSorted {α : Type} (key : α → String) (x : α) :
    ∀ (l : List α) (a : α), a ∈ insertSorted key x l ↔ a = x ∨ a ∈ l := by
  intro l
  induction l with
  | nil => intro a; simp [insertSorted]
  | cons b bs ih =>
    intro a
    simp only [insertSorted]
    split
    · simp [List.mem_cons]
    · simp only [List.mem_cons, ih]
      tauto

theorem pairwise_insertSorted {α : Type} (key : α → String) (x : α) :
    ∀ (l : List α), l.Pairwise (fun u v => strLe (key u) (key v) = true) →
      (insertSorted key x l).Pairwise (fun u v => strLe (key u) (key v) = true) := by
  intro l
  induction l with
  | nil => intro _; simp [insertSorted]
  | cons b bs ih =>
    intro hp
    rw [List.pairwise_cons] at hp
    obtain ⟨hb, hbs⟩ := hp
    simp only [insertSorted]
    split
    · rename_i hxb
      rw [List.pairwise_cons]
      refine ⟨?_, ?_⟩
      · intro a ha
        rcases List.mem_cons.mp ha with rfl | ha
        · exact hxb
        · exact strLe_trans hxb (hb a ha)
      · rw [List.pairwise_cons]
        exact ⟨hb, hbs⟩
    · rename_i hxb
      rw [List.pairwise_cons]
      refine ⟨?_, ih hbs⟩
      intro a ha
      rcases (mem_insertSorted key x bs a).mp ha with rfl | ha
      · rcases strLe_total (key b) (key a) with h | h
        · exact h
        · exact absurd h hxb
      · exact hb a ha

theorem pairwise_sortByKey {α : Type} (key : α → String) :
    ∀ (l : List α), (sortByKey key l).Pairwise (fun u v => strLe (key u) (key v) = true) := by
  intro l
  induction l with
  | nil => simp [sortByKey]
  | cons a as ih => exact pairwise_insertSorted key a (sortByKey key as) ih

theorem mem_sortByKey {α : Type} (key : α → String) :
    ∀ (l : List α) (a : α), a ∈ sortByKey key l ↔ a ∈ l := by
  intro l
  induction l with
  | nil => intro a; simp [sortByKey]
  | cons b bs ih =>
    intro a
    simp only [sortByKey, mem_insertSorted, ih, List.mem_cons]

theorem likeMatchF_congr :
    ∀ (f1 f2 : Nat) (ps s : List Char),
      ps.length + s.length < f1 → ps.length + s.length < f2 →
      likeMatchF f1 ps s = likeMatchF f2 ps s := by
  intro f1
  induction f1 with
  | zero => intro f2 ps s h1 _; omega
  | succ f1 ih =>
    intro f2 ps s h1 h2
    cases f2 with
    | zero => omega
    | succ f2 =>
      cases ps with
      | nil => rfl
      | cons p ps =>
        simp only [likeMatchF]
        by_cases hp : (p == '%') = true
        · rw [if_pos hp, if_pos hp]
          simp only [List.length_cons] at h1 h2
          have e1 : likeMatchF f1 ps s = likeMatchF f2 ps s :=
            ih f2 ps s (by omega) (by omega)
          cases s with
          | nil => rw [e1]
          | cons c ss =>
            simp only [List.length_cons] at h1 h2
            have e2 : likeMatchF f1 (p :: ps) ss = likeMatchF f2 (p :: ps) ss :=
              ih f2 (p :: ps) ss (by simp only [List.length_cons]; omega)
                (by simp only [List.length_cons]; omega)
            show (likeMatchF f1 ps (c :: ss) || likeMatchF f1 (p :: ps) ss) =
              (likeMatchF f2 ps (c :: ss) || likeMatchF f2 (p :: ps) ss)
            rw [e1, e2]
        · rw [if_neg hp, if_neg hp]
          cases s with
          | nil => rfl
          | cons c ss =>
            simp only [List.length_cons] at h1 h2
            have e : likeMatchF f1 ps ss = likeMatchF f2 ps ss :=
              ih f2 ps ss (by omega) (by omega)
            show ((p == '_' || p == c) && likeMatchF f1 ps ss) =
              ((p == '_' || p == c) && likeMatchF f2 ps ss)
            rw [e]

theorem likeMatchF_eq_likeMatch (f : Nat) (ps s : List Char)
    (h : ps.length + s.length < f) : likeMatchF f ps s = likeMatch ps s :=
  likeMatchF_congr f (ps.length + s.length + 1) ps s h (by omega)

theorem likeMatch_nil_pat (s : List Char) : likeMatch [] s = s.isEmpty := rfl

theorem likeMatch_pct (ps s : List Char) :
    likeMatch ('%' :: ps) s =
      (likeMatch ps s ||
        match s with
        | [] => false
        | _ :: ss => likeMatch ('%' :: ps) ss) := by
  cases s with
  | nil =>
    show (likeMatchF (ps.length + 1) ps [] || false) = (likeMatch ps [] || false)
    rw [likeMatchF_eq_likeMatch (ps.length + 1) ps [] (by simp)]
  | cons c ss =>
    show (likeMatchF (ps.length + 1 + (ss.length + 1)) ps (c :: ss) ||
          likeMatchF (ps.length + 1 + (ss.length + 1)) ('%' :: ps) ss) =
      (likeMatch ps (c :: ss) || likeMatch ('%' :: ps) ss)
    rw [likeMatchF_eq_likeMatch _ ps (c :: ss) (by simp only [List.length_cons]; omega),
      likeMatchF_eq_likeMatch _ ('%' :: ps) ss (by simp only [List.length_cons]; omega)]

theorem likeMatch_lit {p : Char} (hp : (p == '%') = false) (ps s : List Char) :
    likeMatch (p :: ps) s =
      match s with
      | [] => false
      | c :: ss => (p == '_' || p == c) && likeMatch ps ss := by
  cases s with
  | nil =>
    simp only [likeMatch, likeMatchF]
    rw [if_neg (by simp [hp])]
  | cons c ss =>
    simp only [likeMatch, likeMatchF]
    rw [if_neg (by simp [hp])]
    show ((p == '_' || p == c) && likeMatchF ((p :: ps).length + (c :: ss).length) ps ss) =
      ((p == '_' || p == c) && likeMatch ps ss)
    rw [likeMatchF_eq_likeMatch _ ps ss (by simp only [List.length_cons]; omega)]

theorem likeMatch_pct_nil : ∀ (l : List Char), likeMatch ['%'] l = true := by
  intro l
  induction l with
  | nil => rfl
  | cons c cs ih =>
    rw [likeMatch_pct]
    show (likeMatch [] (c :: cs) || likeMatch ['%'] cs) = true
    simp [likeMatch_nil_pat, ih]

theorem likeMatch_pct_pct : ∀ (l : List Char), likeMatch ['%', '%'] l = true := by
  intro l
  induction l with
  | nil => rfl
  | cons c cs ih =>
    rw [likeMatch_pct]
    show (likeMatch ['%'] (c :: cs) || likeMatch ['%', '%'] cs) = true
    simp [likeMatch_pct_nil, ih]

/-- The empty search string yields the pattern `%%`, matching every name. -/
theorem ilike_empty (s : String) : ilike s "" = true := by
  show likeMatch ['%', '%'] (s.data.map lowerChar) = true
  exact likeMatch_pct_pct _

theorem bool_not_and_split {a b : Bool} (h : (!a && !b) = true) :
    a = false ∧ b = false := by
  constructor
  · cases hb : a
    · rfl
    · rw [hb] at h; simp at h
  · cases hb : b
    · rfl
    · rw [hb] at h; simp at h

theorem likeMatch_lit_append_pct :
    ∀ (w : List Char), w.all (fun c => !(c == '%') && !(c == '_')) = true →
      ∀ (l : List Char), likeMatch (w ++ ['%']) l = matchAt w l := by
  intro w
  induction w with
  | nil =>
    intro _ l
    show likeMatch ['%'] l = matchAt [] l
    rw [likeMatch_pct_nil]
    rfl
  | cons a as ih =>
    intro hw l
    rw [List.all_cons, Bool.and_eq_true] at hw
    obtain ⟨ha, has⟩ := hw
    obtain ⟨ha1, ha2⟩ := bool_not_and_split ha
    show likeMatch (a :: (as ++ ['%'])) l = matchAt (a :: as) l
    rw [likeMatch_lit ha1 (as ++ ['%']) l]
    cases l with
    | nil => rfl
    | cons c cs =>
      show ((a == '_' || a == c) && likeMatch (as ++ ['%']) cs) =
        ((a == c) && matchAt as cs)
      rw [ha2, ih has cs]
      simp

theorem likeMatch_pct_lit_pct (w : List Char)
    (hw : w.all (fun c => !(c == '%') && !(c == '_')) = true) :
    ∀ (l : List Char), likeMatch ('%' :: (w ++ ['%'])) l = containsSub w l := by
  intro l
  induction l with
  | nil =>
    rw [likeMatch_pct]
    show (likeMatch (w ++ ['%']) [] || false) = containsSub w []
    rw [likeMatch_lit_append_pct w hw []]
    show (matchAt w [] || false) = matchAt w []
    simp
  | cons c cs ih =>
    rw [likeMatch_pct]
    show (likeMatch (w ++ ['%']) (c :: cs) || likeMatch ('%' :: (w ++ ['%'])) cs) =
      containsSub w (c :: cs)
    rw [likeMatch_lit_append_pct w hw (c :: cs), ih]
    rfl

theorem toNat_ofNat_valid (n : Nat) (h : n.isValidChar) :
    (Char.ofNat n).toNat = n := by
  unfold Char.ofNat
  rw [dif_pos h]
  rfl

theorem lowerChar_no_meta {c : Char} (h1 : (c == '%') = false)
    (h2 : (c == '_') = false) :
    (lowerChar c == '%') = false ∧ (lowerChar c == '_') = false := by
  unfold lowerChar
  split
  · rename_i hc
    rw [Bool.and_eq_true, decide_eq_true_iff, decide_eq_true_iff] at hc
    obtain ⟨hc1, hc2⟩ := hc
    have hv : (c.toNat + 32).isValidChar := Or.inl (by omega)
    have ht : (Char.ofNat (c.toNat + 32)).toNat = c.toNat + 32 := toNat_ofNat_valid _ hv
    constructor
    · cases hb : (Char.ofNat (c.toNat + 32) == '%')
      · rfl
      · exfalso
        have he : Char.ofNat (c.toNat + 32) = '%' := eq_of_beq hb
        have h37 : (Char.ofNat (c.toNat + 32)).toNat = 37 := by rw [he]; rfl
        omega
    · cases hb : (Char.ofNat (c.toNat + 32) == '_')
      · rfl
      · exfalso
        have he : Char.ofNat (c.toNat + 32) = '_' := eq_of_beq hb
        have h95 : (Char.ofNat (c.toNat + 32)).toNat = 95 := by rw [he]; rfl
        omega
  · exact ⟨h1, h2⟩

/-- For a search string without LIKE metacharacters, the code's pattern
match `%q%` is exactly literal case-insensitive containment. -/
theorem ilike_eq_containsLit (s q : String)
    (hq : q.data.all (fun c => !(c == '%') && !(c == '_')) = true) :
    ilike s q = containsLit s q := by
  have hw : (q.data.map lowerChar).all (fun c => !(c == '%') && !(c == '_')) = true := by
    rw [List.all_map]
    rw [List.all_eq_true] at hq ⊢
    intro c hc
    obtain ⟨h1, h2⟩ := bool_not_and_split (hq c hc)
    obtain ⟨g1, g2⟩ := lowerChar_no_meta h1 h2
    show (!(lowerChar c == '%') && !(lowerChar c == '_')) = true
    rw [g1, g2]
    rfl
  show likeMatch ('%' :: (q.data.map lowerChar ++ ['%'])) (s.data.map lowerChar) =
    containsSub (q.data.map lowerChar) (s.data.map lowerChar)
  exact likeMatch_pct_lit_pct _ hw _

/-! ## Effect lemmas: what each successful handler call does to the store -/

theorem create_topic_ok {st : State} {p : TopicPayload} {t : Topic} {st2 : State}
    (h : create_topic st p = (.ok t, st2)) :
    st2.topics = st.topics ++ [t] ∧ st2.skills = st.skills ∧
    t.id = genId st.nextId := by
  simp only [create_topic] at h
  split at h
  · simp at h
  · split at h
    · simp at h
    · simp only [Prod.mk.injEq, Except.ok.injEq] at h
      obtain ⟨ht, hst⟩ := h
      subst hst
      subst ht
      exact ⟨rfl, rfl, rfl⟩

theorem update_topic_ok {st : State} {id : String} {p : TopicPayload} {t2 : Topic}
    {st2 : State} (h : update_topic st id p = (.ok t2, st2)) :
    st2.skills = st.skills ∧ t2.id = id ∧
    st2.topics = st.topics.map (fun x => if x.id == id then t2 else x) := by
  simp only [update_topic] at h
  cases hfind : findTopic st id with
  | none => rw [hfind] at h; simp at h
  | some t =>
    rw [hfind] at h
    have htid : t.id = id := by
      have := List.find?_some hfind
      exact eq_of_beq this
    simp only at h
    split at h
    · simp at h
    · simp only [Prod.mk.injEq, Except.ok.injEq] at h
      obtain ⟨ht, hst⟩ := h
      subst hst
      subst ht
      exact ⟨rfl, htid, rfl⟩

theorem update_topic_ok_ids {st : State} {id : String} {p : TopicPayload} {t2 : Topic}
    {st2 : State} (h : update_topic st id p = (.ok t2, st2)) :
    ∀ tid, (∃ x ∈ st.topics, x.id = tid) → ∃ x ∈ st2.topics, x.id = tid := by
  obtain ⟨-, ht2, htop⟩ := update_topic_ok h
  rintro tid ⟨x, hx, rfl⟩
  refine ⟨if x.id == id then t2 else x, ?_, ?_⟩
  · rw [htop]
    exact List.mem_map_of_mem _ hx
  · by_cases hxi : x.id == id
    · simp only [hxi, if_true, ht2]
      exact (eq_of_beq hxi).symm
    · simp [hxi]

theorem delete_topic_ok {st : State} {id : String} {st2 : State}
    (h : delete_topic st id = (.ok (), st2)) :
    st2.skills = st.skills ∧
    st2.topics = st.topics.eraseP (fun t => t.id == id) ∧
    st.skills.any (fun sk => sk.topicID == id) = false := by
  simp only [delete_topic] at h
  cases hfind : findTopic st id with
  | none => rw [hfind] at h; simp at h
  | some t =>
    rw [hfind] at h
    simp only at h
    split at h
    · simp at h
    · rename_i hany
      simp only [Prod.mk.injEq] at h
      obtain ⟨-, hst⟩ := h
      subst hst
      exact ⟨rfl, rfl, by simpa using hany⟩

theorem create_skill_ok {st : State} {p : SkillPayload} {s : Skill} {st2 : State}
    (h : create_skill st p = (.ok s, st2)) :
    st2.topics = st.topics ∧ st2.skills = st.skills ++ [s] ∧
    s.id = genId st.nextId ∧ (findTopic st s.topicID).isSome := by
  simp only [create_skill] at h
  split at h
  · simp at h
  · split at h
    · simp at h
    · split at h
      · simp at h
      · rename_i hfound
        simp only [Prod.mk.injEq, Except.ok.injEq] at h
        obtain ⟨hs, hst⟩ := h
        subst hst
        subst hs
        refine ⟨rfl, rfl, rfl, ?_⟩
        simpa [Option.isNone_iff_eq_none, Option.isSome_iff_ne_none] using hfound

theorem update_skill_ok {st : State} {id : String} {p : SkillPayload} {s2 : Skill}
    {st2 : State} (h : update_skill st id p = (.ok s2, st2)) :
    st2.topics = st.topics ∧ (findTopic st s2.topicID).isSome ∧
    st2.skills = st.skills.map (fun x => if x.id == id then s2 else x) := by
  simp only [update_skill] at h
  cases hfind : findSkill st id with
  | none => rw [hfind] at h; simp at h
  | some s =>
    rw [hfind] at h
    simp only at h
    split at h
    · simp at h
    · rename_i tid heq
      split at h
      · simp at h
      · rename_i hfound
        simp only [Prod.mk.injEq, Except.ok.injEq] at h
        obtain ⟨hs, hst⟩ := h
        subst hst
        subst hs
        refine ⟨rfl, ?_, rfl⟩
        simpa [Option.isNone_iff_eq_none, Option.isSome_iff_ne_none] using hfound

theorem delete_skill_ok {st : State} {id : String} {st2 : State}
    (h : delete_skill st id = (.ok (), st2)) :
    st2.topics = st.topics ∧
    st2.skills = st.skills.eraseP (fun s => s.id == id) := by
  simp only [delete_skill] at h
  cases hfind : findSkill st id with
  | none => rw [hfind] at h; simp at h
  | some s =>
    rw [hfind] at h
    simp only [Prod.mk.injEq] at h
    obtain ⟨-, hst⟩ := h
    subst hst
    exact ⟨rfl, rfl⟩

theorem findTopic_isSome {st : State} {tid : String} :
    (findTopic st tid).isSome ↔ ∃ t ∈ st.topics, t.id = tid := by
  simp [findTopic, List.find?_isSome]

theorem findTopic_eq_none {st : State} {tid : String} :
    findTopic st tid = none ↔ ∀ t ∈ st.topics, t.id ≠ tid := by
  simp [findTopic, List.find?_eq_none]

theorem findSkill_eq_none {st : State} {sid : String} :
    findSkill st sid = none ↔ ∀ s ∈ st.skills, s.id ≠ sid := by
  simp [findSkill, List.find?_eq_none]

/-- After erasing the (unique-keyed) element with key `k`, no element has key `k`. -/
theorem key_ne_of_mem_eraseP {α : Type} (key : α → String) (k : String) :
    ∀ (l : List α), (l.map key).Nodup →
      ∀ x ∈ l.eraseP (fun a => key a == k), key x ≠ k := by
  intro l
  induction l with
  | nil => intro _ x hx; simp at hx
  | cons a as ih =>
    intro hn x hx
    rw [List.map_cons, List.nodup_cons] at hn
    obtain ⟨hka, hnas⟩ := hn
    by_cases hpa : key a == k
    · rw [show List.eraseP (fun a => key a == k) (a :: as) = as from
        List.eraseP_cons_of_pos hpa] at hx
      have hak : key a = k := eq_of_beq hpa
      intro hxk
      exact hka (by rw [hak, ← hxk]; exact List.mem_map_of_mem key hx)
    · rw [show List.eraseP (fun a => key a == k) (a :: as) =
          a :: List.eraseP (fun a => key a == k) as from
        List.eraseP_cons_of_neg (by simpa using hpa)] at hx
      rcases List.mem_cons.mp hx with rfl | hx
      · simpa using hpa
      · exact ih hnas x hx

/-- Every successful service call preserves the Skill foreign-key invariant. -/
theorem step_preserves_skillsValid {st st2 : State} (hstep : Step st st2)
    (hv : skillsValid st) : skillsValid st2 := by
  cases hstep with
  | createTopic h =>
    obtain ⟨htop, hsk, -⟩ := create_topic_ok h
    intro sk hsk2
    rw [hsk] at hsk2
    obtain ⟨t, ht, htid⟩ := hv sk hsk2
    exact ⟨t, by rw [htop]; exact List.mem_append_left _ ht, htid⟩
  | updateTopic h =>
    intro sk hsk2
    rw [(update_topic_ok h).1] at hsk2
    obtain ⟨t, ht, htid⟩ := hv sk hsk2
    exact update_topic_ok_ids h sk.topicID ⟨t, ht, htid⟩
  | deleteTopic h =>
    rename_i id
    obtain ⟨hsk, htop, hany⟩ := delete_topic_ok h
    intro sk hsk2
    rw [hsk] at hsk2
    obtain ⟨t, ht, htid⟩ := hv sk hsk2
    have hskid : ¬ (sk.topicID == id) = true := by
      have := List.any_eq_false.mp hany
      exact this sk hsk2
    refine ⟨t, ?_, htid⟩
    rw [htop]
    rw [List.mem_eraseP_of_neg (by rw [htid]; exact hskid)]
    exact ht
  | createSkill h =>
    intro sk hsk2
    obtain ⟨htop, hsk, -, hfound⟩ := create_skill_ok h
    rw [hsk] at hsk2
    rcases List.mem_append.mp hsk2 with hold | hnew
    · obtain ⟨t, ht, htid⟩ := hv sk hold
      exact ⟨t, by rw [htop]; exact ht, htid⟩
    · rw [List.mem_singleton] at hnew
      subst hnew
      obtain ⟨t, ht, htid⟩ := findTopic_isSome.mp hfound
      exact ⟨t, by rw [htop]; exact ht, htid⟩
  | updateSkill h =>
    rename_i id pp ss
    intro sk hsk2
    obtain ⟨htop, hfound, hsk⟩ := update_skill_ok h
    rw [hsk] at hsk2
    obtain ⟨x, hx, hfx⟩ := List.mem_map.mp hsk2
    by_cases hxi : (x.id == id) = true
    · rw [if_pos hxi] at hfx
      subst hfx
      obtain ⟨t, ht, htid⟩ := findTopic_isSome.mp hfound
      exact ⟨t, by rw [htop]; exact ht, htid⟩
    · rw [if_neg hxi] at hfx
      subst hfx
      obtain ⟨t, ht, htid⟩ := hv x hx
      exact ⟨t, by rw [htop]; exact ht, htid⟩
  | deleteSkill h =>
    intro sk hsk2
    obtain ⟨htop, hsk⟩ := delete_skill_ok h
    rw [hsk] at hsk2
    obtain ⟨t, ht, htid⟩ := hv sk (List.mem_of_mem_eraseP hsk2)
    exact ⟨t, by rw [htop]; exact ht, htid⟩

/-! ## Claims -/

/-- Claim C1: for every stored state, delete of a Topic by id fails with
NotFound when no Topic with that id exists; succeeds (removing the Topic)
iff the Topic exists and no Skill has `topicID` equal to that Topic's id;
and otherwise (Topic exists and some Skill references it) always fails with
Conflict, leaving the store unchanged. -/
theorem c1_delete_topic_spec (st : State) (id : String) :
    (outcomeOf (delete_topic st id).1 = .notFound ↔ findTopic st id = none) ∧
    (outcomeOf (delete_topic st id).1 = .ok ↔
      (∃ t ∈ st.topics, t.id = id) ∧ ∀ sk ∈ st.skills, sk.topicID ≠ id) ∧
    (outcomeOf (delete_topic st id).1 = .conflict ↔
      (∃ t ∈ st.topics, t.id = id) ∧ ∃ sk ∈ st.skills, sk.topicID = id) ∧
    (outcomeOf (delete_topic st id).1 ≠ .ok → (delete_topic st id).2 = st) ∧
    (outcomeOf (delete_topic st id).1 = .ok →
      (delete_topic st id).2.skills = st.skills ∧
      (delete_topic st id).2.topics.Sublist st.topics ∧
      (delete_topic st id).2.topics.length + 1 = st.topics.length ∧
      ((st.topics.map Topic.id).Nodup →
        ∀ t ∈ (delete_topic st id).2.topics, t.id ≠ id)) := by
  cases hfind : findTopic st id with
  | none =>
    have hD : delete_topic st id = (.error (.notFound "Topic not found"), st) := by
      simp [delete_topic, hfind]
    have hne := findTopic_eq_none.mp hfind
    rw [hD]
    refine ⟨by simp [outcomeOf, hfind], ?_, ?_, fun _ => rfl, by simp [outcomeOf]⟩
    · simp only [outcomeOf]
      constructor
      · intro hcon; exact absurd hcon (by decide)
      · rintro ⟨⟨t, ht, rfl⟩, -⟩
        exact absurd rfl (hne t ht)
    · simp only [outcomeOf]
      constructor
      · intro hcon; exact absurd hcon (by decide)
      · rintro ⟨⟨t, ht, rfl⟩, -⟩
        exact absurd rfl (hne t ht)
  | some t =>
    have hfind2 : st.topics.find? (fun x => x.id == id) = some t := hfind
    have htmem : t ∈ st.topics := List.mem_of_find?_eq_some hfind2
    have htid : t.id = id := by
      have hb := List.find?_some hfind2
      simpa using hb
    cases hany : st.skills.any (fun sk => sk.topicID == id) with
    | true =>
      have hD : delete_topic st id =
          (.error (.conflict "Topic has skills; move or delete skills first"), st) := by
        simp only [delete_topic, hfind]
        rw [if_pos hany]
      obtain ⟨sk, hskmem, hskid⟩ := List.any_eq_true.mp hany
      rw [hD]
      refine ⟨?_, ?_, ?_, fun _ => rfl, by simp [outcomeOf]⟩
      · simp only [outcomeOf]
        constructor
        · intro hcon; exact absurd hcon (by decide)
        · intro hnone; exact absurd hnone (by simp)
      · simp only [outcomeOf]
        constructor
        · intro hcon; exact absurd hcon (by decide)
        · rintro ⟨-, hall⟩
          exact absurd (eq_of_beq hskid) (hall sk hskmem)
      · simp only [outcomeOf]
        constructor
        · intro _; exact ⟨⟨t, htmem, htid⟩, sk, hskmem, eq_of_beq hskid⟩
        · intro _; trivial
    | false =>
      have hD : delete_topic st id =
          (.ok (), ⟨st.topics.eraseP (fun t => t.id == id), st.skills, st.nextId⟩) := by
        simp only [delete_topic, hfind]
        rw [if_neg (by simp [hany])]
      have hnone := List.any_eq_false.mp hany
      rw [hD]
      refine ⟨?_, ?_, ?_, ?_, ?_⟩
      · simp only [outcomeOf]
        constructor
        · intro hcon; exact absurd hcon (by decide)
        · intro hn; exact absurd hn (by simp)
      · simp only [outcomeOf]
        constructor
        · intro _
          exact ⟨⟨t, htmem, htid⟩, fun sk hsk hid =>
            hnone sk hsk (by simp [hid])⟩
        · intro _; trivial
      · simp only [outcomeOf]
        constructor
        · intro hcon; exact absurd hcon (by decide)
        · rintro ⟨-, sk, hskmem, hskid⟩
          exact absurd (by simp [hskid]) (hnone sk hskmem)
      · intro hcon; exact absurd rfl hcon
      · intro _
        refine ⟨rfl, List.eraseP_sublist _, ?_, ?_⟩
        · have hlen : (st.topics.eraseP (fun x => x.id == id)).length =
              st.topics.length - 1 :=
            List.length_eraseP_of_mem htmem (by simp [htid])
          have hpos : 0 < st.topics.length := List.length_pos_of_mem htmem
          show (st.topics.eraseP (fun t => t.id == id)).length + 1 = st.topics.length
          omega
        · intro hnodup x hx
          exact key_ne_of_mem_eraseP Topic.id id st.topics hnodup x hx

/-- Claim C1 witness: deleting a Topic which a Skill references fails with
Conflict on a concrete store. -/
theorem c1_delete_topic_spec_witness :
    outcomeOf (delete_topic
      ⟨[⟨"id0", "T", none, none⟩], [⟨"id1", "S", "id0", "beginner"⟩], 2⟩ "id0").1
      = .conflict :=
  ((c1_delete_topic_spec
    ⟨[⟨"id0", "T", none, none⟩], [⟨"id1", "S", "id0", "beginner"⟩], 2⟩ "id0").2.2.1).mpr
    (by decide)

/-- Claim C2: in every state reachable from the empty store via the service
operations, every stored Skill's `topicID` references an existing Topic;
moreover Skill update re-checks the resolved `topicID` against the store
even when the payload leaves every field absent. -/
theorem c2_skill_fk_invariant :
    (∀ st, Reachable st → skillsValid st) ∧
    (∀ st id s, findSkill st id = some s → findTopic st s.topicID = none →
      outcomeOf (update_skill st id ⟨none, none, none, none⟩).1 = .validation) := by
  constructor
  · intro st h
    induction h with
    | init => intro sk hsk; simp [emptyState] at hsk
    | step _ hstep ih => exact step_preserves_skillsValid hstep ih
  · intro st id s hfind hnone
    simp [update_skill, hfind, resolveUpdateTopicID, hnone, outcomeOf]

/-- Claim C2 witness: the invariant holds in a concrete reachable state with
one Topic and one Skill. -/
theorem c2_skill_fk_invariant_witness :
    skillsValid ⟨[⟨"id0", "Math", none, none⟩], [⟨"id1", "Addition", "id0", "beginner"⟩], 2⟩ :=
  c2_skill_fk_invariant.1
    ⟨[⟨"id0", "Math", none, none⟩], [⟨"id1", "Addition", "id0", "beginner"⟩], 2⟩
    (Reachable.step
      (Reachable.step Reachable.init
        (Step.createTopic
          ((by decide) :
            create_topic emptyState ⟨some "Math", none, none⟩ =
              (.ok ⟨"id0", "Math", none, none⟩, ⟨[⟨"id0", "Math", none, none⟩], [], 1⟩))))
      (Step.createSkill
        ((by decide) :
          create_skill ⟨[⟨"id0", "Math", none, none⟩], [], 1⟩
              ⟨some "Addition", some (some "id0"), none, none⟩ =
            (.ok ⟨"id1", "Addition", "id0", "beginner"⟩,
              ⟨[⟨"id0", "Math", none, none⟩],
                [⟨"id1", "Addition", "id0", "beginner"⟩], 2⟩))))

/-- Claim C10: whenever a mutating handler returns an error result
(NotFound, ValidationError or Conflict), the stored Topics and Skills are
unchanged: every error branch returns before any write. -/
theorem c10_errors_leave_store_unchanged (st : State) (id : String)
    (p : TopicPayload) (sp : SkillPayload) :
    (outcomeOf (create_topic st p).1 ≠ .ok → (create_topic st p).2 = st) ∧
    (outcomeOf (update_topic st id p).1 ≠ .ok → (update_topic st id p).2 = st) ∧
    (outcomeOf (delete_topic st id).1 ≠ .ok → (delete_topic st id).2 = st) ∧
    (outcomeOf (create_skill st sp).1 ≠ .ok → (create_skill st sp).2 = st) ∧
    (outcomeOf (update_skill st id sp).1 ≠ .ok → (update_skill st id sp).2 = st) ∧
    (outcomeOf (delete_skill st id).1 ≠ .ok → (delete_skill st id).2 = st) := by
  refine ⟨?_, ?_, ?_, ?_, ?_, ?_⟩
  · simp only [create_topic]
    split
    · intro _; rfl
    · split
      · intro _; rfl
      · intro h; exact absurd rfl h
  · simp only [update_topic]
    split
    · intro _; rfl
    · split
      · intro _; rfl
      · intro h; exact absurd rfl h
  · simp only [delete_topic]
    split
    · intro _; rfl
    · split
      · intro _; rfl
      · intro h; exact absurd rfl h
  · simp only [create_skill]
    split
    · intro _; rfl
    · split
      · intro _; rfl
      · split
        · intro _; rfl
        · intro h; exact absurd rfl h
  · simp only [update_skill]
    split
    · intro _; rfl
    · split
      · intro _; rfl
      · split
        · intro _; rfl
        · intro h; exact absurd rfl h
  · simp only [delete_skill]
    split
    · intro _; rfl
    · intro h; exact absurd rfl h

/-- Claim C10 witness: deleting a missing Topic from the empty store errors
and leaves the store unchanged. -/
theorem c10_errors_leave_store_unchanged_witness :
    (delete_topic emptyState "x").2 = emptyState :=
  (c10_errors_leave_store_unchanged emptyState "x" ⟨none, none, none⟩
    ⟨none, none, none, none⟩).2.2.1 (by decide)

/-- Claim C7: `limit` defaults to 50 and is clamped to at most 200 with
non-positive values passed through; `offset` defaults to 0 and is clamped
to at least 0; `limit=1000` yields 200 and `offset=-5` yields 0; both list
handlers use exactly these clamped values. -/
theorem c7_pagination_clamp :
    (clampLimit none = 50) ∧
    (∀ l : Int, clampLimit (some l) ≤ 200) ∧
    (∀ l : Int, l ≤ 0 → clampLimit (some l) = l) ∧
    (clampOffset none = 0) ∧
    (∀ o : Int, 0 ≤ clampOffset (some o)) ∧
    (clampLimit (some 1000) = 200) ∧
    (clampOffset (some (-5)) = 0) ∧
    (∀ st lq, (list_topics st lq).limit = clampLimit lq.limit ∧
      (list_topics st lq).offset = clampOffset lq.offset ∧
      (list_skills st lq).limit = clampLimit lq.limit ∧
      (list_skills st lq).offset = clampOffset lq.offset) := by
  refine ⟨rfl, ?_, ?_, rfl, ?_, rfl, rfl, ?_⟩
  · intro l; exact min_le_right _ _
  · intro l hl
    simp only [clampLimit, Option.getD]
    omega
  · intro o; exact le_max_right _ _
  · intro st lq; exact ⟨rfl, rfl, rfl, rfl⟩

/-- Claim C7 witness: a non-positive limit is passed through unchanged. -/
theorem c7_pagination_clamp_witness : clampLimit (some (-7)) = -7 :=
  c7_pagination_clamp.2.2.1 (-7) (by decide)

theorem mem_applyPage {α : Type} {l : List α} {a : α} {lim off : Int}
    (h : a ∈ applyPage l lim off) : a ∈ l :=
  List.mem_of_mem_drop (List.mem_of_mem_take h)

theorem applyPage_sublist {α : Type} (l : List α) (lim off : Int) :
    (applyPage l lim off).Sublist l :=
  (List.take_sublist _ _).trans (List.drop_sublist _ _)

/-- Claim C5 counterexample: with the search string `q = "_"` the code's
filter matches names against the pattern `%_%`, whose unescaped `_` is a
live wildcard, so
the Topic named "Math" is returned (and counted in `total`) although its
name does not contain `"_"` — the claim's "contains q case-insensitively"
is false at this input. -/
theorem c5_counterexample :
    (list_topics ⟨[⟨"t1", "Math", none, none⟩], [], 1⟩
      ⟨some "_", none, none, none⟩).total = 1 ∧
    (list_topics ⟨[⟨"t1", "Math", none, none⟩], [], 1⟩
      ⟨some "_", none, none, none⟩).data = [⟨"t1", "Math", none, none⟩] ∧
    containsLit "Math" "_" = false := by decide

/-- Claim C5 (amended): for a `q`-only list query, the returned `total`
counts every row whose name matches the SQL pattern `%q%`
case-insensitively (the code interpolates `q` unescaped, so `%` and `_`
inside `q` are live wildcards), independent of `limit` and `offset`; every
returned row matches that pattern filter; `data` is exactly the page
window over the sorted pattern-filtered rows; and whenever `q` contains no
LIKE metacharacter the pattern filter coincides with literal
case-insensitive containment of `q`. -/
theorem c5_amended_list_pattern_filter_total (st : State) (q : String)
    (lim off : Option Int) :
    ((list_topics st ⟨some q, none, lim, off⟩).total =
      (st.topics.filter (fun t => ilike t.name q)).length) ∧
    (∀ t ∈ (list_topics st ⟨some q, none, lim, off⟩).data, ilike t.name q = true) ∧
    ((list_topics st ⟨some q, none, lim, off⟩).data =
      applyPage (sortByKey (fun t => t.name) (st.topics.filter (fun t => ilike t.name q)))
        (clampLimit lim) (clampOffset off)) ∧
    ((list_skills st ⟨some q, none, lim, off⟩).total =
      (st.skills.filter (fun s => ilike s.name q)).length) ∧
    (∀ s ∈ (list_skills st ⟨some q, none, lim, off⟩).data, ilike s.name q = true) ∧
    ((list_skills st ⟨some q, none, lim, off⟩).data =
      applyPage (sortByKey (fun s => s.name) (st.skills.filter (fun s => ilike s.name q)))
        (clampLimit lim) (clampOffset off)) ∧
    (q.data.all (fun c => !(c == '%') && !(c == '_')) = true →
      ∀ s : String, ilike s q = containsLit s q) := by
  have hT : list_topics st ⟨some q, none, lim, off⟩ =
      ⟨applyPage (sortByKey (fun t => t.name) (st.topics.filter (fun t => ilike t.name q)))
        (clampLimit lim) (clampOffset off),
       (st.topics.filter (fun t => ilike t.name q)).length,
       clampLimit lim, clampOffset off⟩ := by
    simp only [list_topics]
    by_cases hq : q = ""
    · subst hq
      rw [show st.topics.filter (fun t => ilike t.name "") = st.topics from
        List.filter_eq_self.mpr (fun a _ => ilike_empty a.name)]
      simp [truthy]
    · simp [truthy, hq]
  have hS : list_skills st ⟨some q, none, lim, off⟩ =
      ⟨applyPage (sortByKey (fun s => s.name) (st.skills.filter (fun s => ilike s.name q)))
        (clampLimit lim) (clampOffset off),
       (st.skills.filter (fun s => ilike s.name q)).length,
       clampLimit lim, clampOffset off⟩ := by
    simp only [list_skills]
    by_cases hq : q = ""
    · subst hq
      rw [show st.skills.filter (fun s => ilike s.name "") = st.skills from
        List.filter_eq_self.mpr (fun a _ => ilike_empty a.name)]
      simp [truthy]
    · simp [truthy, hq]
  refine ⟨by rw [hT], ?_, by rw [hT], by rw [hS], ?_, by rw [hS], ?_⟩
  · intro t ht
    rw [hT] at ht
    have hmem := mem_applyPage ht
    rw [mem_sortByKey] at hmem
    exact (List.mem_filter.mp hmem).2
  · intro s hs
    rw [hS] at hs
    have hmem := mem_applyPage hs
    rw [mem_sortByKey] at hmem
    exact (List.mem_filter.mp hmem).2
  · intro hq s
    exact ilike_eq_containsLit s q hq

/-- Claim C5 amended witness: for the metacharacter-free search string
`"alg"` the pattern filter agrees with literal containment on a concrete
name. -/
theorem c5_amended_list_pattern_filter_total_witness :
    ilike "Algebra" "alg" = containsLit "Algebra" "alg" :=
  (c5_amended_list_pattern_filter_total emptyState "alg" none none).2.2.2.2.2.2
    (by decide) "Algebra"

theorem pairwise_applyPage {α : Type} (key : α → String) (l : List α) (lim off : Int) :
    (applyPage (sortByKey key l) lim off).Pairwise
      (fun a b => strLe (key a) (key b) = true) :=
  List.Pairwise.sublist (applyPage_sublist _ _ _) (pairwise_sortByKey key l)

/-- Claim C6 (amended): both list handlers return rows sorted by name
ascending (the query orders by `name.asc()` only; no identifier tie-break
is applied). -/
theorem c6_amended_sorted_by_name :
    (∀ (st : State) (lq : ListQuery),
      ((list_topics st lq).data).Pairwise (fun a b => strLe a.name b.name = true)) ∧
    (∀ (st : State) (lq : ListQuery),
      ((list_skills st lq).data).Pairwise (fun a b => strLe a.name b.name = true)) := by
  constructor
  · intro st lq
    exact pairwise_applyPage (fun t : Topic => t.name) _ _ _
  · intro st lq
    exact pairwise_applyPage (fun s : Skill => s.name) _ _ _

/-- Claim C6 counterexample: with two equal-named Topics stored in
insertion order "b" then "a", the listing keeps that order, so the output
is NOT ordered with ties broken by identifier ascending. -/
theorem c6_counterexample :
    ¬ ((list_topics ⟨[⟨"b", "same", none, none⟩, ⟨"a", "same", none, none⟩], [], 2⟩
        ⟨none, none, none, none⟩).data).Pairwise
      (fun a b => strLt a.name b.name = true ∨
        (a.name = b.name ∧ strLe a.id b.id = true)) := by decide

/-- Claim C3 counterexample: create Topic A, create Topic B with parent A,
then delete A — the delete guard only checks Skills, so the reachable final
state has B with a dangling `parentTopicID`. -/
theorem c3_counterexample : ¬ (∀ st, Reachable st → parentsValidB st = true) := by
  intro hclaim
  have hr : Reachable ⟨[⟨"id1", "B", none, some "id0"⟩], [], 2⟩ :=
    Reachable.step
      (Reachable.step
        (Reachable.step Reachable.init
          (Step.createTopic
            ((by decide) : create_topic emptyState ⟨some "A", none, none⟩ =
              (.ok ⟨"id0", "A", none, none⟩, ⟨[⟨"id0", "A", none, none⟩], [], 1⟩))))
        (Step.createTopic
          ((by decide) : create_topic ⟨[⟨"id0", "A", none, none⟩], [], 1⟩
              ⟨some "B", none, some (some "id0")⟩ =
            (.ok ⟨"id1", "B", none, some "id0"⟩,
              ⟨[⟨"id0", "A", none, none⟩, ⟨"id1", "B", none, some "id0"⟩], [], 2⟩))))
      (Step.deleteTopic
        ((by decide) : delete_topic
            ⟨[⟨"id0", "A", none, none⟩, ⟨"id1", "B", none, some "id0"⟩], [], 2⟩ "id0" =
          (.ok (), ⟨[⟨"id1", "B", none, some "id0"⟩], [], 2⟩)))
  have hv := hclaim ⟨[⟨"id1", "B", none, some "id0"⟩], [], 2⟩ hr
  exact absurd hv (by decide)

/-- Claim C3 (amended): a non-empty `parentTopicID` stored by Topic create
or update references a Topic existing at write time, but the invariant is
not maintained: Topic delete is guarded only by dependent Skills, so a
reachable state can contain a Topic with a dangling `parentTopicID`. -/
theorem c3_amended_parent_checked_at_write_only :
    (∀ st p t st2, create_topic st p = (.ok t, st2) →
      ∀ pid, t.parentTopicID = some pid → pid ≠ "" → ∃ u ∈ st.topics, u.id = pid) ∧
    (∀ st id p t st2, update_topic st id p = (.ok t, st2) →
      ∀ pid, t.parentTopicID = some pid → pid ≠ "" → ∃ u ∈ st.topics, u.id = pid) ∧
    (∃ st, Reachable st ∧ parentsValidB st = false) := by
  refine ⟨?_, ?_, ?_⟩
  · intro st p t st2 h pid hpid hpne
    simp only [create_topic] at h
    split at h
    · simp at h
    · split at h
      · simp at h
      · rename_i hcond
        simp only [Prod.mk.injEq, Except.ok.injEq] at h
        obtain ⟨ht, -⟩ := h
        rw [← ht] at hpid
        simp only at hpid
        rw [hpid] at hcond
        rw [Bool.and_eq_true, not_and] at hcond
        have htr : truthy (some pid) = true := by
          simp [truthy, hpne]
        have hns := hcond htr
        rw [← findTopic_isSome]
        simp only [Option.getD] at hns ⊢
        cases hf : findTopic st pid with
        | none => rw [hf] at hns; exact absurd rfl hns
        | some u => rfl
  · intro st id p t st2 h pid hpid hpne
    simp only [update_topic] at h
    cases hfind : findTopic st id with
    | none => rw [hfind] at h; simp at h
    | some t0 =>
      rw [hfind] at h
      simp only at h
      split at h
      · simp at h
      · rename_i hcond
        simp only [Prod.mk.injEq, Except.ok.injEq] at h
        obtain ⟨ht, -⟩ := h
        rw [← ht] at hpid
        simp only at hpid
        rw [hpid] at hcond
        rw [Bool.and_eq_true, not_and] at hcond
        have htr : truthy (some pid) = true := by
          simp [truthy, hpne]
        have hns := hcond htr
        rw [← findTopic_isSome]
        simp only [Option.getD] at hns ⊢
        cases hf : findTopic st pid with
        | none => rw [hf] at hns; exact absurd rfl hns
        | some u => rfl
  · refine ⟨⟨[⟨"id1", "B", none, some "id0"⟩], [], 2⟩, ?_, by decide⟩
    exact Reachable.step
      (Reachable.step
        (Reachable.step Reachable.init
          (Step.createTopic
            ((by decide) : create_topic emptyState ⟨some "A", none, none⟩ =
              (.ok ⟨"id0", "A", none, none⟩, ⟨[⟨"id0", "A", none, none⟩], [], 1⟩))))
        (Step.createTopic
          ((by decide) : create_topic ⟨[⟨"id0", "A", none, none⟩], [], 1⟩
              ⟨some "B", none, some (some "id0")⟩ =
            (.ok ⟨"id1", "B", none, some "id0"⟩,
              ⟨[⟨"id0", "A", none, none⟩, ⟨"id1", "B", none, some "id0"⟩], [], 2⟩))))
      (Step.deleteTopic
        ((by decide) : delete_topic
            ⟨[⟨"id0", "A", none, none⟩, ⟨"id1", "B", none, some "id0"⟩], [], 2⟩ "id0" =
          (.ok (), ⟨[⟨"id1", "B", none, some "id0"⟩], [], 2⟩)))

/-- Claim C3 amended witness: the parent stored by a concrete create did
exist at write time. -/
theorem c3_amended_parent_checked_at_write_only_witness :
    ∃ u ∈ (⟨[⟨"id0", "A", none, none⟩], [], 1⟩ : State).topics, u.id = "id0" :=
  c3_amended_parent_checked_at_write_only.1
    ⟨[⟨"id0", "A", none, none⟩], [], 1⟩ ⟨some "B", none, some (some "id0")⟩
    ⟨"id1", "B", none, some "id0"⟩
    ⟨[⟨"id0", "A", none, none⟩, ⟨"id1", "B", none, some "id0"⟩], [], 2⟩
    (by decide) "id0" (by decide) (by decide)

/-- Claim C4 counterexample: the payload supplies the `parentTopicID` key
(with the empty string), no Topic with that identifier exists, and yet
Topic create succeeds — the code only validates a truthy `parentTopicID`,
so the claimed "fails iff ... a parentTopicID is supplied and no Topic with
that identifier exists" is false at this input. -/
theorem c4_counterexample :
    outcomeOf (create_topic emptyState ⟨some "X", none, some (some "")⟩).1 = .ok ∧
    (some (some "") : Option (Option String)) ≠ none ∧
    findTopic emptyState "" = none := by decide

/-- Claim C4 (amended): Topic create fails ValidationError iff the trimmed
name is empty or a truthy (non-null, non-empty) `parentTopicID` is supplied
whose Topic does not exist; Skill create fails ValidationError iff the
trimmed name is empty, the resolved `topicID` is falsy, or the referenced
Topic does not exist; otherwise each create appends the new entity with a
generated identifier. -/
theorem c4_amended_create_validation (st : State) (p : TopicPayload)
    (sp : SkillPayload) :
    (outcomeOf (create_topic st p).1 = .validation ↔
      pyStrip (orElseStr p.name "") = "" ∨
      (truthy (p.parentTopicID.getD none) = true ∧
        findTopic st ((p.parentTopicID.getD none).getD "") = none)) ∧
    (outcomeOf (create_skill st sp).1 = .validation ↔
      pyStrip (orElseStr sp.name "") = "" ∨
      truthy (resolveCreateTopicID sp) = false ∨
      findTopic st ((resolveCreateTopicID sp).getD "") = none) ∧
    (∀ t st2, create_topic st p = (.ok t, st2) →
      t.id = genId st.nextId ∧ st2.topics = st.topics ++ [t] ∧ st2.skills = st.skills) ∧
    (∀ s st2, create_skill st sp = (.ok s, st2) →
      s.id = genId st.nextId ∧ st2.skills = st.skills ++ [s] ∧ st2.topics = st.topics) := by
  refine ⟨?_, ?_, ?_, ?_⟩
  · simp only [create_topic]
    by_cases h1 : pyStrip (orElseStr p.name "") = ""
    · rw [if_pos (by simp [h1])]
      exact iff_of_true rfl (Or.inl h1)
    · rw [if_neg (by simp [h1])]
      by_cases h2 : truthy (p.parentTopicID.getD none) = true ∧
          findTopic st ((p.parentTopicID.getD none).getD "") = none
      · rw [if_pos (by simp [Bool.and_eq_true, Option.isNone_iff_eq_none, h2.1, h2.2])]
        exact iff_of_true rfl (Or.inr h2)
      · rw [if_neg (by
          simp only [Bool.and_eq_true, Option.isNone_iff_eq_none]
          exact h2)]
        refine iff_of_false (by simp [outcomeOf]) ?_
        rintro (h | h)
        · exact h1 h
        · exact h2 h
  · simp only [create_skill]
    by_cases h1 : pyStrip (orElseStr sp.name "") = ""
    · rw [if_pos (by simp [h1])]
      exact iff_of_true rfl (Or.inl h1)
    · rw [if_neg (by simp [h1])]
      by_cases h2 : truthy (resolveCreateTopicID sp) = false
      · rw [if_pos (by simp [h2])]
        exact iff_of_true rfl (Or.inr (Or.inl h2))
      · rw [if_neg (by simp [h2])]
        by_cases h3 : findTopic st ((resolveCreateTopicID sp).getD "") = none
        · rw [if_pos (by simp [Option.isNone_iff_eq_none, h3])]
          exact iff_of_true rfl (Or.inr (Or.inr h3))
        · rw [if_neg (by simp [Option.isNone_iff_eq_none, h3])]
          refine iff_of_false (by simp [outcomeOf]) ?_
          rintro (h | h | h)
          · exact h1 h
          · exact h2 h
          · exact h3 h
  · intro t st2 h
    obtain ⟨htop, hsk, hid⟩ := create_topic_ok h
    exact ⟨hid, htop, hsk⟩
  · intro s st2 h
    obtain ⟨htop, hsk, hid, -⟩ := create_skill_ok h
    exact ⟨hid, hsk, htop⟩

/-- Claim C4 amended witness: a whitespace-only name makes Topic create
fail with ValidationError on the empty store. -/
theorem c4_amended_create_validation_witness :
    outcomeOf (create_topic emptyState ⟨some " ", none, none⟩).1 = .validation :=
  (c4_amended_create_validation emptyState ⟨some " ", none, none⟩
    ⟨none, none, none, none⟩).1.mpr (Or.inl (by decide))

/-- Claim C8 counterexample: the update payload provides `name` as the
empty string (empty after trimming), but the handler falls back to the
existing name "Old" instead of applying the provided value — Python
`payload.get("name") or t.name` treats a provided empty name as absent. -/
theorem c8_counterexample :
    (update_topic ⟨[⟨"id0", "Old", none, none⟩], [], 1⟩ "id0"
      ⟨some "", none, none⟩).1 = .ok ⟨"id0", "Old", none, none⟩ ∧
    pyStrip "" = "" ∧ (Topic.mk "id0" "Old" none none).name ≠ pyStrip "" := by decide

/-- Claim C8 (amended): on Topic update, a provided non-empty `name` is
applied trimmed (even when trimming yields the empty string); a `name`
provided as the empty string, like an absent one, falls back to the
existing name (trimmed); `description` and `parentTopicID` keep their prior
values when absent from the payload; the id never changes. -/
theorem c8_amended_update_topic_merge (st : State) (id : String) (p : TopicPayload)
    (t : Topic) (hfind : findTopic st id = some t) :
    ∀ t2 st2, update_topic st id p = (.ok t2, st2) →
      (∀ s, p.name = some s → s ≠ "" → t2.name = pyStrip s) ∧
      ((p.name = none ∨ p.name = some "") → t2.name = pyStrip t.name) ∧
      (p.description = none → t2.description = t.description) ∧
      (p.parentTopicID = none → t2.parentTopicID = t.parentTopicID) ∧
      t2.id = t.id := by
  intro t2 st2 h
  simp only [update_topic, hfind] at h
  split at h
  · simp at h
  · simp only [Prod.mk.injEq, Except.ok.injEq] at h
    obtain ⟨ht, -⟩ := h
    subst ht
    refine ⟨?_, ?_, ?_, ?_, rfl⟩
    · intro s hs hsne
      simp [orElseStr, truthy, hs, hsne]
    · rintro (hs | hs) <;> simp [orElseStr, truthy, hs]
    · intro hd; simp [hd]
    · intro hp; simp [hp]

/-- Claim C8 amended witness: updating with name `" A "` stores the trimmed
`"A"`. -/
theorem c8_amended_update_topic_merge_witness :
    (Topic.mk "id0" "A" none none).name = pyStrip " A " :=
  (c8_amended_update_topic_merge ⟨[⟨"id0", "Old", none, none⟩], [], 1⟩ "id0"
    ⟨some " A ", none, none⟩ ⟨"id0", "Old", none, none⟩ (by decide)
    ⟨"id0", "A", none, none⟩ ⟨[⟨"id0", "A", none, none⟩], [], 1⟩ (by decide)).1
    " A " rfl (by decide)

/-- Claim C9 counterexample: a whitespace-only `difficulty` is empty after
trimming, yet the stored Skill's difficulty is `""`, not `"beginner"` — the
code substitutes the default before trimming, not after. -/
theorem c9_counterexample :
    (create_skill ⟨[⟨"id0", "T", none, none⟩], [], 1⟩
      ⟨some "A", some (some "id0"), none, some " "⟩).1 =
      .ok ⟨"id1", "A", "id0", ""⟩ ∧
    pyStrip " " = "" ∧ (Skill.mk "id1" "A" "id0" "").difficulty ≠ "beginner" := by
  decide

/-- Claim C9 (amended): on successful Skill create, `difficulty` is
`"beginner"` when the supplied value is absent or the empty string, and is
the trimmed supplied value otherwise (so a whitespace-only supplied value
is stored as the empty string, not the default). -/
theorem c9_amended_difficulty_default (st : State) (sp : SkillPayload) :
    ∀ s st2, create_skill st sp = (.ok s, st2) →
      ((sp.difficulty = none ∨ sp.difficulty = some "") → s.difficulty = "beginner") ∧
      (∀ d, sp.difficulty = some d → d ≠ "" → s.difficulty = pyStrip d) := by
  intro s st2 h
  simp only [create_skill] at h
  split at h
  · simp at h
  · split at h
    · simp at h
    · split at h
      · simp at h
      · simp only [Prod.mk.injEq, Except.ok.injEq] at h
        obtain ⟨hs, -⟩ := h
        subst hs
        constructor
        · rintro (hd | hd) <;> simp [orElseStr, truthy, hd] <;> decide
        · intro d hd hdne
          simp [orElseStr, truthy, hd, hdne]

/-- Claim C9 amended witness: difficulty `" hard "` is stored trimmed as
`"hard"`. -/
theorem c9_amended_difficulty_default_witness :
    (Skill.mk "id1" "A" "id0" "hard").difficulty = pyStrip " hard " :=
  (c9_amended_difficulty_default ⟨[⟨"id0", "T", none, none⟩], [], 1⟩
    ⟨some "A", some (some "id0"), none, some " hard "⟩
    ⟨"id1", "A", "id0", "hard"⟩
    ⟨[⟨"id0", "T", none, none⟩], [⟨"id1", "A", "id0", "hard"⟩], 2⟩ (by decide)).2
    " hard " rfl (by decide)
